import Mathlib

/-!
# Verification of ubuntu-app-launch core algorithms

Shallow embedding of three components of the ubuntu-app-launch repository:

* the Snap application-store backend
  (`src/libubuntu-app-launch/app-store-snap.cpp`),
* the icon-theme search algorithm
  (`src/libubuntu-app-launch/application-icon-finder.cpp`),
* the desktop-file reconciler (`src/desktop-hook.c`).

Filesystem access, the snapd daemon and GLib key files are external
collaborators; they are modelled as explicit function-valued parameters so
the embedded code stays executable and the control flow of the C/C++
sources is preserved line for line.
-/

namespace UAL

/-! ## Snap backend: data model

`AppID` is the (package, appname, version) triplet of the spec.  `PkgInfo`
is the package metadata fetched from snapd: the declared app names (a
`std::set<std::string>`, modelled as a list in its sorted iteration order)
and the package revision. -/

structure AppID where
  package : String
  appname : String
  version : String
deriving DecidableEq

structure PkgInfo where
  appnames : List String
  revision : String
deriving DecidableEq

/-- Error vocabulary of §7 of the spec.  The C++ sources throw
`std::runtime_error`; each distinct throw site is mapped to the error kind
the spec gives it, and `transportError` stands for daemon/transport
failures raised below the backend. -/
inductive SnapError where
  | transportError
  | packageNotFound
  | emptyPackage
  | ambiguousPackage
deriving DecidableEq

/-- The registry's connection to the snapd daemon.  The transport may fail
(`Except.error`), which models the exceptions of the C++ REST transport. -/
structure Registry where
  transport : String → Except SnapError (Option PkgInfo)

/-- Modelled from the spec: `snapd::Info::pkgInfo` (snapd-info.cpp, which is
not under src/).  §3: absence of `PackageInfo` means "package unknown," not
an error; §6: "errors from the transport surface as exceptions that calling
code must catch and treat as 'not found,' never propagate."  Accordingly the
lookup catches transport failures and converts them to absence; its result
type keeps the `Except` layer because its C++ signature can throw as far as
callers can tell. -/
def Registry.pkgInfo (r : Registry) (package : String) : Except SnapError (Option PkgInfo) :=
  match r.transport package with
  | .ok info => .ok info
  | .error _ => .ok none

/-- Modelled from the spec: `app_impls::Snap::checkPkgInfo`
(application-impl-snap.cpp, which is not under src/).  Per §3/§4.2 an
identity exists only if package metadata is present, the AppID's version
equals the package revision, and the appname is among the declared app
names; absent metadata means "package unknown," so the check fails. -/
def checkPkgInfo : Option PkgInfo → AppID → Bool
  | none, _ => false
  | some pinfo, appid =>
      decide (pinfo.revision = appid.version) && pinfo.appnames.contains appid.appname

/-! ## Snap name predicate

`app-store-snap.cpp` line 42:
`const std::regex appnameRegex{"^[a-zA-Z0-9](?:-?[a-zA-Z0-9])*$"};`
transcribed as a deterministic matcher: the head must be alphanumeric, and
each further step consumes an optional dash followed by an alphanumeric. -/

def alnumChar (c : Char) : Bool :=
  (decide ('a' ≤ c) && decide (c ≤ 'z')) ||
  (decide ('A' ≤ c) && decide (c ≤ 'Z')) ||
  (decide ('0' ≤ c) && decide (c ≤ '9'))

def snapNameRest : List Char → Bool
  | [] => true
  | '-' :: c :: rest => alnumChar c && snapNameRest rest
  | c :: rest => alnumChar c && snapNameRest rest

def snapNameMatch (s : String) : Bool :=
  match s.data with
  | [] => false
  | c :: rest => alnumChar c && snapNameRest rest

/-! ## String ordering

`std::set<std::string>` iterates in the lexicographic byte order of
`std::string::operator<`; `strLt` transcribes that comparison so that
"name order" in the wildcard-resolution claims is the order the source
actually uses. -/

def strLtL : List Char → List Char → Bool
  | [], [] => false
  | [], _ :: _ => true
  | _ :: _, [] => false
  | a :: as, b :: bs => if a < b then true else if b < a then false else strLtL as bs

def strLt (s t : String) : Bool := strLtL s.data t.data

def strLe (s t : String) : Bool := ! strLt t s

namespace Snap

/-- `Snap::hasAppId` (app-store-snap.cpp lines 60-74).  The second
component counts how many package-daemon lookups (`pkgInfo` calls) the
probe performed, the collaborator-stub call counter of the spec's test. -/
def hasAppId (r : Registry) (appId : AppID) : Except SnapError Bool × Nat :=
  if appId.package = "" ∨ appId.version = "" then
    (.ok false, 0)
  else if ¬ snapNameMatch appId.appname then
    (.ok false, 0)
  else
    match r.pkgInfo appId.package with
    | .ok pkginfo => (.ok (checkPkgInfo pkginfo appId), 1)
    | .error e => (.error e, 1)

/-- `Snap::verifyPackage` (app-store-snap.cpp lines 81-92).  The source
wraps the lookup in `try/catch (std::runtime_error)` and returns `false`
on a caught error. -/
def verifyPackage (r : Registry) (package : String) : Bool :=
  match r.pkgInfo package with
  | .ok pkgInfo => pkgInfo.isSome
  | .error _ => false

/-- `Snap::verifyAppname` (app-store-snap.cpp lines 100-117).  No
`try/catch` here: a raised lookup error would propagate. -/
def verifyAppname (r : Registry) (package appname : String) : Except SnapError Bool :=
  if ¬ snapNameMatch appname then
    .ok false
  else
    match r.pkgInfo package with
    | .error e => .error e
    | .ok none => .ok false
    | .ok (some pkgInfo) => .ok (pkgInfo.appnames.contains appname)

inductive ApplicationWildcard where
  | FIRST_LISTED
  | LAST_LISTED
  | ONLY_LISTED
deriving DecidableEq

/-- `Snap::findAppname` (app-store-snap.cpp lines 126-158).
`*appnames.begin()` is the head of the sorted app-name list and
`*appnames.rbegin()` its last element; the guards make the defaulted
accessors total. -/
def findAppname (r : Registry) (package : String) (card : ApplicationWildcard) :
    Except SnapError String :=
  match r.pkgInfo package with
  | .error e => .error e
  | .ok none => .error .packageNotFound
  | .ok (some pinfo) =>
      if pinfo.appnames.isEmpty then .error .emptyPackage
      else
        match card with
        | .FIRST_LISTED => .ok (pinfo.appnames.headD "")
        | .LAST_LISTED => .ok (pinfo.appnames.getLastD "")
        | .ONLY_LISTED =>
            if pinfo.appnames.length ≠ 1 then .error .ambiguousPackage
            else .ok (pinfo.appnames.headD "")

/-- `Snap::findVersion` (app-store-snap.cpp lines 166-179): the revision if
package metadata is available, the empty string otherwise.  The `appname`
argument is unused by the snap backend, as in the source. -/
def findVersion (r : Registry) (package appname : String) : Except SnapError String :=
  match r.pkgInfo package with
  | .error e => .error e
  | .ok (some pinfo) => .ok pinfo.revision
  | .ok none => .ok ""

end Snap

/-! ## Snap backend: theorems -/

theorem pkgInfo_of_transport_error (r : Registry) (p : String) (e : SnapError)
    (ht : r.transport p = .error e) : r.pkgInfo p = .ok none := by
  simp [Registry.pkgInfo, ht]

/-- C1: if the package or version field is empty, or the appname fails the
snap-name predicate `^[a-zA-Z0-9](-?[a-zA-Z0-9])*$`, `Snap::hasAppId`
returns `false` having performed zero package-daemon lookups; an AppID
passing all three checks performs exactly one daemon lookup. -/
theorem snap_hasAppId_fast_reject (r : Registry) (a : AppID) :
    (a.package = "" ∨ a.version = "" ∨ snapNameMatch a.appname = false →
      Snap.hasAppId r a = (.ok false, 0))
    ∧ (a.package ≠ "" → a.version ≠ "" → snapNameMatch a.appname = true →
      (Snap.hasAppId r a).2 = 1) := by
  constructor
  · intro h
    simp only [Snap.hasAppId]
    by_cases hp : a.package = "" ∨ a.version = ""
    · rw [if_pos hp]
    · rw [if_neg hp, if_pos]
      rcases h with h | h | h
      · exact absurd (Or.inl h) hp
      · exact absurd (Or.inr h) hp
      · simp [h]
  · intro h1 h2 h3
    simp only [Snap.hasAppId]
    rw [if_neg (by tauto), if_neg (by simp [h3])]
    cases hr : r.pkgInfo a.package <;> rfl

theorem snap_hasAppId_fast_reject_witness :
    Snap.hasAppId (Registry.mk fun _ => .ok none) ⟨"", "app", "1.0"⟩ = (.ok false, 0)
    ∧ (Snap.hasAppId (Registry.mk fun _ => .ok none) ⟨"pkg", "app", "1.0"⟩).2 = 1 :=
  ⟨(snap_hasAppId_fast_reject (Registry.mk fun _ => .ok none) ⟨"", "app", "1.0"⟩).1
      (Or.inl rfl),
   (snap_hasAppId_fast_reject (Registry.mk fun _ => .ok none) ⟨"pkg", "app", "1.0"⟩).2
      (by decide) (by decide) (by decide)⟩

/-- C3: when the package-daemon transport fails for the queried package,
`Snap::hasAppId`, `Snap::verifyPackage` and `Snap::verifyAppname` all
return `false` instead of propagating the error (the snapd-info lookup
layer converts the failure to "not found"). -/
theorem snap_queries_collapse_daemon_errors (r : Registry) (e : SnapError) (p n : String)
    (a : AppID) (ht : r.transport p = .error e) (hp : a.package = p) :
    Snap.verifyPackage r p = false
    ∧ Snap.verifyAppname r p n = .ok false
    ∧ (Snap.hasAppId r a).1 = .ok false := by
  have hpkg : r.pkgInfo p = .ok none := pkgInfo_of_transport_error r p e ht
  refine ⟨?_, ?_, ?_⟩
  · simp [Snap.verifyPackage, hpkg]
  · by_cases hn : snapNameMatch n <;> simp [Snap.verifyAppname, hpkg, hn]
  · subst hp
    by_cases h1 : a.package = "" ∨ a.version = ""
    · simp [Snap.hasAppId, h1]
    · by_cases h2 : snapNameMatch a.appname
      · simp [Snap.hasAppId, h1, h2, hpkg, checkPkgInfo]
      · simp [Snap.hasAppId, h1, h2]

theorem snap_queries_collapse_daemon_errors_witness :
    Snap.verifyPackage (Registry.mk fun _ => .error .transportError) "pkg" = false
    ∧ Snap.verifyAppname (Registry.mk fun _ => .error .transportError) "pkg" "app" = .ok false
    ∧ (Snap.hasAppId (Registry.mk fun _ => .error .transportError) ⟨"pkg", "app", "1"⟩).1
        = .ok false :=
  snap_queries_collapse_daemon_errors (Registry.mk fun _ => .error .transportError)
    .transportError "pkg" "app" ⟨"pkg", "app", "1"⟩ rfl rfl

/-- C9: `Snap::findVersion` returns the package revision when metadata is
available, and the empty version — not an error — when it is not (package
unknown, or daemon unreachable). -/
theorem snap_findVersion_empty_when_unavailable (r : Registry) (p n : String) :
    (∀ pinfo, r.transport p = .ok (some pinfo) →
      Snap.findVersion r p n = .ok pinfo.revision)
    ∧ (r.transport p = .ok none → Snap.findVersion r p n = .ok "")
    ∧ (∀ e, r.transport p = .error e → Snap.findVersion r p n = .ok "") := by
  refine ⟨?_, ?_, ?_⟩ <;> intros <;> simp_all [Snap.findVersion, Registry.pkgInfo]

theorem snap_findVersion_empty_when_unavailable_witness :
    Snap.findVersion (Registry.mk fun _ => .ok (some ⟨["app"], "rev7"⟩)) "pkg" "app"
      = .ok "rev7"
    ∧ Snap.findVersion (Registry.mk fun _ => .ok none) "pkg" "app" = .ok ""
    ∧ Snap.findVersion (Registry.mk fun _ => .error .transportError) "pkg" "app" = .ok "" :=
  ⟨(snap_findVersion_empty_when_unavailable (Registry.mk fun _ => .ok (some ⟨["app"], "rev7"⟩))
      "pkg" "app").1 ⟨["app"], "rev7"⟩ rfl,
   (snap_findVersion_empty_when_unavailable (Registry.mk fun _ => .ok none) "pkg" "app").2.1 rfl,
   (snap_findVersion_empty_when_unavailable (Registry.mk fun _ => .error .transportError)
      "pkg" "app").2.2 .transportError rfl⟩

theorem strLtL_irrefl : ∀ as : List Char, strLtL as as = false := by
  intro as
  induction as with
  | nil => rfl
  | cons a t ih => simp [strLtL, if_neg (lt_irrefl a), ih]

theorem strLtL_trans (as bs cs : List Char) (h1 : strLtL as bs = true)
    (h2 : strLtL bs cs = true) : strLtL as cs = true := by
  induction as generalizing bs cs with
  | nil =>
      cases bs with
      | nil => simp [strLtL] at h1
      | cons b bs2 =>
          cases cs with
          | nil => simp [strLtL] at h2
          | cons c cs2 => simp [strLtL]
  | cons a as2 ih =>
      cases bs with
      | nil => simp [strLtL] at h1
      | cons b bs2 =>
          cases cs with
          | nil => simp [strLtL] at h2
          | cons c cs2 =>
              simp only [strLtL] at h1 h2 ⊢
              by_cases hab : a < b
              · by_cases hbc : b < c
                · rw [if_pos (lt_trans hab hbc)]
                · rw [if_neg hbc] at h2
                  by_cases hcb : c < b
                  · rw [if_pos hcb] at h2
                    exact absurd h2 (by simp)
                  · have hbceq : b = c := le_antisymm (le_of_not_lt hcb) (le_of_not_lt hbc)
                    subst hbceq
                    rw [if_pos hab]
              · rw [if_neg hab] at h1
                by_cases hba : b < a
                · rw [if_pos hba] at h1
                  exact absurd h1 (by simp)
                · have habeq : a = b := le_antisymm (le_of_not_lt hba) (le_of_not_lt hab)
                  subst habeq
                  rw [if_neg hab] at h1
                  by_cases hac : a < c
                  · rw [if_pos hac]
                  · rw [if_neg hac] at h2 ⊢
                    by_cases hca : c < a
                    · rw [if_pos hca] at h2
                      exact absurd h2 (by simp)
                    · rw [if_neg hca] at h2 ⊢
                      exact ih bs2 cs2 h1 h2

theorem strLe_refl (a : String) : strLe a a = true := by
  simp [strLe, strLt, strLtL_irrefl]

theorem strLe_of_strLt (a b : String) (h : strLt a b = true) : strLe a b = true := by
  simp only [strLe, Bool.not_eq_true']
  cases hc : strLt b a
  · rfl
  · have := strLtL_trans _ _ _ h hc
    rw [strLtL_irrefl] at this
    exact absurd this (by simp)

theorem strLt_strLe_trans (a b c : String) (h1 : strLt a b = true)
    (h2 : strLe b c = true) : strLe a c = true := by
  simp only [strLe, Bool.not_eq_true'] at h2 ⊢
  cases hc : strLt c a
  · rfl
  · have hcb := strLtL_trans _ _ _ hc h1
    rw [show strLtL c.data b.data = strLt c b from rfl, h2] at hcb
    exact absurd hcb (by simp)

theorem head_min_of_sorted (a : String) (l : List String)
    (h : List.Pairwise (fun x y => strLt x y = true) (a :: l)) :
    ∀ x ∈ a :: l, strLe a x = true := by
  intro x hx
  rcases List.mem_cons.mp hx with rfl | hx
  · exact strLe_refl x
  · exact strLe_of_strLt a x ((List.pairwise_cons.mp h).1 x hx)

theorem getLastD_cons_mem (l : List String) (a d : String) :
    (a :: l).getLastD d ∈ a :: l := by
  induction l generalizing a with
  | nil => simp
  | cons b t ih =>
      rw [List.getLastD_cons]
      exact List.mem_cons_of_mem a (ih b)

theorem getLastD_max_of_sorted (l : List String) (a d : String)
    (h : List.Pairwise (fun x y => strLt x y = true) (a :: l)) :
    ∀ x ∈ a :: l, strLe x ((a :: l).getLastD d) = true := by
  induction l generalizing a with
  | nil =>
      intro x hx
      rcases List.mem_cons.mp hx with rfl | hx
      · exact strLe_refl x
      · simp at hx
  | cons b t ih =>
      intro x hx
      rw [List.getLastD_cons]
      have hab : strLt a b = true := (List.pairwise_cons.mp h).1 b (List.mem_cons_self b t)
      have hrest := ih b (List.pairwise_cons.mp h).2
      rcases List.mem_cons.mp hx with rfl | hx
      · exact strLt_strLe_trans x b _ hab (hrest b (List.mem_cons_self b t))
      · exact hrest x hx

/-- C2 counterexample: a package whose metadata is present but whose app
set is empty fails `Snap::findAppname` under `ONLY_LISTED` with
`EmptyPackage`, not with `AmbiguousPackage` as the claim states for every
candidate-set size other than 1. -/
theorem snap_findAppname_empty_only_listed_counterexample :
    Snap.findAppname (Registry.mk fun _ => .ok (some ⟨[], "1"⟩)) "pkg" .ONLY_LISTED
      = .error .emptyPackage
    ∧ SnapError.emptyPackage ≠ SnapError.ambiguousPackage :=
  ⟨rfl, by decide⟩

/-- C2 (amended): `Snap::findAppname` fails with `PackageNotFound` when the
package has no metadata, with `EmptyPackage` when the declared app set is
empty, and under `ONLY_LISTED` with `AmbiguousPackage` whenever the set is
nonempty and its size is not 1; with exactly one candidate every wildcard
returns it, and otherwise `FIRST_LISTED`/`LAST_LISTED` return the first and
last app name in name order. -/
theorem snap_findAppname_resolution (r : Registry) (p : String) :
    (r.transport p = .ok none →
      ∀ card, Snap.findAppname r p card = .error .packageNotFound)
    ∧ (∀ pinfo, r.transport p = .ok (some pinfo) →
        (pinfo.appnames = [] → ∀ card, Snap.findAppname r p card = .error .emptyPackage)
        ∧ (pinfo.appnames ≠ [] → pinfo.appnames.length ≠ 1 →
            Snap.findAppname r p .ONLY_LISTED = .error .ambiguousPackage)
        ∧ (∀ a, pinfo.appnames = [a] → ∀ card, Snap.findAppname r p card = .ok a)
        ∧ (List.Pairwise (fun x y => strLt x y = true) pinfo.appnames →
            pinfo.appnames ≠ [] →
            (∃ first, Snap.findAppname r p .FIRST_LISTED = .ok first
              ∧ first ∈ pinfo.appnames ∧ ∀ x ∈ pinfo.appnames, strLe first x = true)
            ∧ (∃ last, Snap.findAppname r p .LAST_LISTED = .ok last
              ∧ last ∈ pinfo.appnames ∧ ∀ x ∈ pinfo.appnames, strLe x last = true))) := by
  constructor
  · intro ht card
    simp [Snap.findAppname, Registry.pkgInfo, ht]
  · intro pinfo ht
    have hpkg : r.pkgInfo p = .ok (some pinfo) := by simp [Registry.pkgInfo, ht]
    refine ⟨?_, ?_, ?_, ?_⟩
    · intro hemp card
      simp [Snap.findAppname, hpkg, hemp]
    · intro hne hlen
      simp [Snap.findAppname, hpkg, List.isEmpty_iff, hne, hlen]
    · intro a hone card
      cases card <;> simp [Snap.findAppname, hpkg, hone]
    · intro hsort hne
      obtain ⟨a, t, hat⟩ := List.exists_cons_of_ne_nil hne
      rw [hat] at hsort ⊢
      constructor
      · refine ⟨a, ?_, List.mem_cons_self a t, head_min_of_sorted a t hsort⟩
        simp [Snap.findAppname, hpkg, hat]
      · refine ⟨(a :: t).getLastD "", ?_, getLastD_cons_mem t a "",
          getLastD_max_of_sorted t a "" hsort⟩
        simp [Snap.findAppname, hpkg, hat]

theorem snap_findAppname_resolution_witness :
    (∃ first, Snap.findAppname (Registry.mk fun _ => .ok (some ⟨["alpha", "beta"], "1"⟩))
        "pkg" .FIRST_LISTED = .ok first ∧ first ∈ ["alpha", "beta"]
        ∧ ∀ x ∈ ["alpha", "beta"], strLe first x = true)
    ∧ Snap.findAppname (Registry.mk fun _ => .ok (some ⟨["alpha", "beta"], "1"⟩)) "pkg"
      .ONLY_LISTED = .error .ambiguousPackage
    ∧ Snap.findAppname (Registry.mk fun _ => .ok (some ⟨["solo"], "1"⟩)) "pkg"
      .ONLY_LISTED = .ok "solo" := by
  have h2 := (snap_findAppname_resolution
      (Registry.mk fun _ => .ok (some ⟨["alpha", "beta"], "1"⟩)) "pkg").2
      ⟨["alpha", "beta"], "1"⟩ rfl
  have h1 := (snap_findAppname_resolution
      (Registry.mk fun _ => .ok (some ⟨["solo"], "1"⟩)) "pkg").2 ⟨["solo"], "1"⟩ rfl
  exact ⟨(h2.2.2.2 (by decide) (by decide)).1, h2.2.1 (by decide) (by decide),
    h1.2.2.1 "solo" rfl .ONLY_LISTED⟩

/-! ## IconFinder: filesystem model and path arithmetic

The filesystem and GLib key files are external collaborators; they are
modelled as function-valued records.  `gjoin` transcribes
`g_build_filename` for two components: one separator at the seam,
duplicate separators at the seam collapsed, empty components skipped. -/

structure KeyFile where
  getString : String → String → Option String
  getInteger : String → String → Option Int
  getStringList : String → String → Option (List String)

structure FS where
  fileExists : String → Bool
  isDir : String → Bool
  dirEntries : String → Option (List String)
  loadKeyFile : String → Option KeyFile

def gjoin (a b : String) : String :=
  if a = "" then b
  else if b = "" then a
  else String.mk ((a.data.reverse.dropWhile (fun c => c = '/')).reverse
        ++ '/' :: b.data.dropWhile (fun c => c = '/'))

def strEndsWith (s suf : String) : Bool :=
  List.isPrefixOf suf.data.reverse s.data.reverse

/-- `child.find(needle) != npos`: substring containment on char lists. -/
def containsSub (needle : List Char) : List Char → Bool
  | [] => List.isPrefixOf needle []
  | c :: t => List.isPrefixOf needle (c :: t) || containsSub needle t

/-- `parent.find_last_of('/', upTo)`: the largest index `≤ upTo` holding
the character, if any. -/
def findLastOf (cs : List Char) (ch : Char) (upTo : Nat) : Option Nat :=
  (List.range cs.length).foldl
    (fun acc i => if i ≤ upTo ∧ cs.getD i ' ' = ch then some i else acc) none

namespace IconFinder

def ICON_TYPES : List String := [".png", ".svg", ".xpm"]

structure ThemeSubdirectory where
  path : String
  size : Int
deriving DecidableEq

/-- `IconFinder::hasImageExtension` (application-icon-finder.cpp 143-153). -/
def hasImageExtension (filename : String) : Bool :=
  ICON_TYPES.any (fun extension => strEndsWith filename extension)

/-- `IconFinder::findExistingIcon` (application-icon-finder.cpp 156-185):
if the name already carries an image extension only that file is probed,
otherwise each recognized extension is probed in turn and the first hit is
returned. -/
def findExistingIcon (fs : FS) (path iconName : String) : String :=
  if hasImageExtension iconName then
    let fullpath := gjoin path iconName
    if fs.fileExists fullpath then fullpath else ""
  else
    match ICON_TYPES.find? (fun extension =>
        fs.fileExists (gjoin path (iconName ++ extension))) with
    | some extension => gjoin path (iconName ++ extension)
    | none => ""

/-- One iteration of the lookup loop of `IconFinder::find`
(application-icon-finder.cpp 126-137): a directory is probed only when its
size is strictly greater than the best size found so far. -/
def findIconStep (fs : FS) (iconName : String) (acc : Int × String)
    (path : ThemeSubdirectory) : Int × String :=
  if path.size > acc.1 then
    let foundIcon := findExistingIcon fs path.path iconName
    if foundIcon = "" then acc else (path.size, foundIcon)
  else acc

def findLoop (fs : FS) (iconName : String) (searchPaths : List ThemeSubdirectory) :
    Int × String :=
  searchPaths.foldl (findIconStep fs iconName) (0, "")

/-- The lookup loop instrumented with the list of directories actually
probed, in probe order. -/
def findLoopTrace (fs : FS) (iconName : String) :
    List ThemeSubdirectory → Int × String → (Int × String) × List ThemeSubdirectory
  | [], acc => (acc, [])
  | path :: rest, acc =>
      if path.size > acc.1 then
        let foundIcon := findExistingIcon fs path.path iconName
        let acc2 := if foundIcon = "" then acc else (path.size, foundIcon)
        let r := findLoopTrace fs iconName rest acc2
        (r.1, path :: r.2)
      else findLoopTrace fs iconName rest acc

/-- The `slashPos`/`prevSlashPos` walk of `tryMergeFilePaths`
(application-icon-finder.cpp 49-72).  `slashPos - 1` underflows to
`SIZE_MAX` in the source when `slashPos == 0`, making the search start
over from the end; the fuel bounds the walk, covering every terminating
execution of the source loop (on inputs where the source loop never
terminates the model returns `child`, the loop's fall-through result). -/
def mergeLoop (fs : FS) (parent child : String) :
    Nat → Option Nat → Option Nat → String
  | 0, _, _ => child
  | _ + 1, none, _ => child
  | fuel + 1, some slashPos, prevSlashPos =>
      let nextPos : Option Nat :=
        if slashPos = 0 then findLastOf parent.data '/' parent.length
        else findLastOf parent.data '/' (slashPos - 1)
      match prevSlashPos with
      | some prev =>
          if ¬ containsSub (parent.data.drop slashPos) child.data then
            let pathWithBase := gjoin (String.mk (parent.data.take prev)) child
            if fs.fileExists pathWithBase then pathWithBase else child
          else mergeLoop fs parent child fuel nextPos (some slashPos)
      | none => mergeLoop fs parent child fuel nextPos (some slashPos)

def tryMergeFilePaths (fs : FS) (parent child : String) : String :=
  mergeLoop fs parent child (2 * parent.length + 4)
    (findLastOf parent.data '/' parent.length) none

/-- `tryFindExplicitFile` (application-icon-finder.cpp 74-101). -/
def tryFindExplicitFile (fs : FS) (basePath iconName : String) : String :=
  if fs.fileExists iconName then iconName
  else
    let pathWithBase := gjoin basePath iconName
    if fs.fileExists pathWithBase then pathWithBase
    else
      let mergedIconName := tryMergeFilePaths fs basePath iconName
      if mergedIconName ≠ iconName then mergedIconName else ""

/-- `IconFinder::find` (application-icon-finder.cpp 111-140).  Note the
fall-through after a failed explicit-path resolution runs the ranked loop
with `iconName` unchanged. -/
def find (fs : FS) (basePath : String) (searchPaths : List ThemeSubdirectory)
    (iconName : String) : String :=
  let loopResult := (findLoop fs iconName searchPaths).2
  if iconName.data.head? = some '/' then
    let explicitIconPath := tryFindExplicitFile fs basePath iconName
    if explicitIconPath ≠ "" then explicitIconPath else loopResult
  else loopResult

/-- `IconFinder::validDirectories` (application-icon-finder.cpp 188-201). -/
def validDirectories (fs : FS) (themePath directory : String) (size : Int) :
    List ThemeSubdirectory :=
  let globalHicolorTheme := gjoin themePath directory
  if fs.fileExists globalHicolorTheme then [⟨globalHicolorTheme, size⟩] else []

/-- `IconFinder::addSubdirectoryByType` (application-icon-finder.cpp
204-261): `Fixed` → `Size`, `Scalable` → `MaxSize`, `Threshold` →
`Size + Threshold` with `Threshold` defaulting to 2. -/
def addSubdirectoryByType (fs : FS) (themefile : KeyFile)
    (directory themePath : String) : List ThemeSubdirectory :=
  match themefile.getString directory "Type" with
  | none => []
  | some type =>
      if type = "Fixed" then
        match themefile.getInteger directory "Size" with
        | none => []
        | some size => validDirectories fs themePath directory size
      else if type = "Scalable" then
        match themefile.getInteger directory "MaxSize" with
        | none => []
        | some size => validDirectories fs themePath directory size
      else if type = "Threshold" then
        match themefile.getInteger directory "Size" with
        | none => []
        | some size =>
            let threshold := (themefile.getInteger directory "Threshold").getD 2
            validDirectories fs themePath directory (size + threshold)
      else []

/-- `IconFinder::searchIconPaths` (application-icon-finder.cpp 264-286):
only stanzas whose `Context` is `Applications` contribute. -/
def searchIconPaths (fs : FS) (themefile : KeyFile) (directories : List String)
    (themePath : String) : List ThemeSubdirectory :=
  directories.foldl (fun subdirs d =>
    match themefile.getString d "Context" with
    | none => subdirs
    | some context =>
        if context = "Applications" then
          subdirs ++ addSubdirectoryByType fs themefile d themePath
        else subdirs) []

/-- `IconFinder::themeFileSearchPaths` (application-icon-finder.cpp
290-317). -/
def themeFileSearchPaths (fs : FS) (themePath : String) : List ThemeSubdirectory :=
  match fs.loadKeyFile (gjoin themePath "index.theme") with
  | none => []
  | some themefile =>
      match themefile.getStringList "Icon Theme" "Directories" with
      | none => []
      | some directories => searchIconPaths fs themefile directories themePath

def digitsToNat (ds : List Char) : Nat :=
  ds.foldl (fun n c => n * 10 + (c.toNat - '0'.toNat)) 0

/-- The `^(\d+)x\1$` directory-name pattern of the source
(application-icon-finder.cpp 47): because the repeated group is followed
by `x`, the group is exactly the maximal digit prefix. -/
def parseSizeDirname (s : String) : Option Int :=
  let ds := s.data.takeWhile Char.isDigit
  if ds.isEmpty then none
  else if s.data = ds ++ 'x' :: ds then some (Int.ofNat (digitsToNat ds)) else none

/-- `IconFinder::themeDirSearchPaths` (application-icon-finder.cpp
321-362): scan the theme directory; `scalable` is assigned size 256 and
`NxN` children their size; only children with an existing `apps`
subdirectory count. -/
def themeDirSearchPaths (fs : FS) (themeDir : String) : List ThemeSubdirectory :=
  match fs.dirEntries themeDir with
  | none => []
  | some entries =>
      entries.foldl (fun searchPaths dirname =>
        let fullPath := gjoin (gjoin themeDir dirname) "apps"
        if fs.isDir fullPath then
          if dirname = "scalable" then searchPaths ++ [⟨fullPath, 256⟩]
          else
            match parseSizeDirname dirname with
            | some n => searchPaths ++ [⟨fullPath, n⟩]
            | none => searchPaths
        else searchPaths) []

/-- `IconFinder::iconsFromThemePath` (application-icon-finder.cpp
366-388). -/
def iconsFromThemePath (fs : FS) (themeDir : String) : List ThemeSubdirectory :=
  if fs.isDir themeDir then
    let themeDirs := themeFileSearchPaths fs themeDir
    ⟨themeDir, 1⟩ ::
      (if themeDirs.length > 0 then themeDirs else themeDirSearchPaths fs themeDir)
  else []

/-- The unsorted collection phase of `IconFinder::getSearchPaths`
(application-icon-finder.cpp 391-422): hicolor theme, Humanity theme, the
root icons directory and the pixmaps fallback, in insertion order. -/
def collectSearchPaths (fs : FS) (basePath : String) : List ThemeSubdirectory :=
  iconsFromThemePath fs (gjoin basePath "/icons/hicolor")
  ++ iconsFromThemePath fs (gjoin basePath "/icons/Humanity")
  ++ (if fs.isDir (gjoin basePath "/icons") then [⟨gjoin basePath "/icons", 1⟩] else [])
  ++ (if fs.isDir (gjoin basePath "/pixmaps/") then [⟨gjoin basePath "/pixmaps/", 1⟩]
      else [])

/-- Stable insertion step for the descending-size sort: an element moves
past another only when the other is strictly smaller, so equal sizes keep
their relative order. -/
def insertBySize (x : ThemeSubdirectory) :
    List ThemeSubdirectory → List ThemeSubdirectory
  | [] => [x]
  | y :: ys => if y.size > x.size then y :: insertBySize x ys else x :: y :: ys

/-- `iconPaths.sort(lhs.size > rhs.size)` — `std::list::sort` is stable,
and a stable sort's output is unique, so stable insertion sort models it
exactly. -/
def sortBySizeDesc : List ThemeSubdirectory → List ThemeSubdirectory
  | [] => []
  | x :: xs => insertBySize x (sortBySizeDesc xs)

/-- `IconFinder::getSearchPaths` (application-icon-finder.cpp 391-426). -/
def getSearchPaths (fs : FS) (basePath : String) : List ThemeSubdirectory :=
  sortBySizeDesc (collectSearchPaths fs basePath)

end IconFinder

/-! ## IconFinder: theorems -/

namespace IconFinder

/-- Characterization of the ranked lookup loop: the accumulator either
survives untouched or is replaced by a probe hit; the best size never
decreases; and every matching directory's size is dominated by the final
best size. -/
theorem findLoop_aux_spec (fs : FS) (name : String) :
    ∀ (l : List ThemeSubdirectory) (acc : Int × String),
      (l.foldl (findIconStep fs name) acc = acc
        ∨ ∃ p ∈ l, findExistingIcon fs p.path name ≠ ""
            ∧ l.foldl (findIconStep fs name) acc = (p.size, findExistingIcon fs p.path name)
            ∧ acc.1 < p.size)
      ∧ acc.1 ≤ (l.foldl (findIconStep fs name) acc).1
      ∧ ∀ p ∈ l, findExistingIcon fs p.path name ≠ "" →
          p.size ≤ (l.foldl (findIconStep fs name) acc).1 := by
  intro l
  induction l with
  | nil => exact fun acc => ⟨Or.inl rfl, le_refl _, by simp⟩
  | cons p rest ih =>
      intro acc
      rw [List.foldl_cons]
      by_cases h1 : p.size > acc.1
      · by_cases h2 : findExistingIcon fs p.path name = ""
        · have hacc2 : findIconStep fs name acc p = acc := by
            simp [findIconStep, h1, h2]
          rw [hacc2]
          obtain ⟨d, m, hall⟩ := ih acc
          refine ⟨?_, m, ?_⟩
          · rcases d with d | ⟨q, hq, hqne, hqeq, hqlt⟩
            · exact Or.inl d
            · exact Or.inr ⟨q, List.mem_cons_of_mem p hq, hqne, hqeq, hqlt⟩
          · intro q hq hqne
            rcases List.mem_cons.mp hq with rfl | hq
            · exact absurd h2 hqne
            · exact hall q hq hqne
        · have hacc2 : findIconStep fs name acc p
              = (p.size, findExistingIcon fs p.path name) := by
            simp [findIconStep, h1, h2]
          rw [hacc2]
          obtain ⟨d, m, hall⟩ := ih (p.size, findExistingIcon fs p.path name)
          refine ⟨?_, le_trans (le_of_lt h1) m, ?_⟩
          · rcases d with d | ⟨q, hq, hqne, hqeq, hqlt⟩
            · exact Or.inr ⟨p, List.mem_cons_self p rest, h2, d, h1⟩
            · exact Or.inr ⟨q, List.mem_cons_of_mem p hq, hqne, hqeq,
                lt_trans h1 hqlt⟩
          · intro q hq hqne
            rcases List.mem_cons.mp hq with rfl | hq
            · exact m
            · exact hall q hq hqne
      · have hacc2 : findIconStep fs name acc p = acc := by
          simp [findIconStep, h1]
        rw [hacc2]
        obtain ⟨d, m, hall⟩ := ih acc
        refine ⟨?_, m, ?_⟩
        · rcases d with d | ⟨q, hq, hqne, hqeq, hqlt⟩
          · exact Or.inl d
          · exact Or.inr ⟨q, List.mem_cons_of_mem p hq, hqne, hqeq, hqlt⟩
        · intro q hq hqne
          rcases List.mem_cons.mp hq with rfl | hq
          · exact le_trans (le_of_not_lt h1) m
          · exact hall q hq hqne

theorem findLoop_spec (fs : FS) (name : String) (l : List ThemeSubdirectory) :
    (findLoop fs name l = (0, "")
      ∨ ∃ p ∈ l, findExistingIcon fs p.path name ≠ ""
          ∧ findLoop fs name l = (p.size, findExistingIcon fs p.path name)
          ∧ 0 < p.size)
    ∧ 0 ≤ (findLoop fs name l).1
    ∧ ∀ p ∈ l, findExistingIcon fs p.path name ≠ "" →
        p.size ≤ (findLoop fs name l).1 :=
  findLoop_aux_spec fs name l (0, "")

/-- A nonempty result of `findExistingIcon` is an existing file whose name
obeys the extension discipline of the source. -/
theorem findExistingIcon_spec (fs : FS) (path name : String)
    (h : findExistingIcon fs path name ≠ "") :
    fs.fileExists (findExistingIcon fs path name) = true
    ∧ (hasImageExtension name = true → findExistingIcon fs path name = gjoin path name)
    ∧ (hasImageExtension name = false → ∃ extension ∈ ICON_TYPES,
        findExistingIcon fs path name = gjoin path (name ++ extension)) := by
  by_cases himg : hasImageExtension name
  · by_cases hex : fs.fileExists (gjoin path name)
    · have hval : findExistingIcon fs path name = gjoin path name := by
        simp [findExistingIcon, himg, hex]
      exact ⟨by rw [hval]; exact hex, fun _ => hval, fun hc => by simp [himg] at hc⟩
    · have : findExistingIcon fs path name = "" := by
        simp [findExistingIcon, himg, hex]
      exact absurd this h
  · cases hfind : ICON_TYPES.find? (fun extension =>
        fs.fileExists (gjoin path (name ++ extension))) with
    | none =>
        have : findExistingIcon fs path name = "" := by
          simp [findExistingIcon, himg, hfind]
        exact absurd this h
    | some extension =>
        have hval : findExistingIcon fs path name = gjoin path (name ++ extension) := by
          simp [findExistingIcon, himg, hfind]
        refine ⟨?_, fun hc => absurd hc himg, fun _ =>
          ⟨extension, List.mem_of_find?_eq_some hfind, hval⟩⟩
        rw [hval]
        simpa using List.find?_some hfind

/-- When the ranked search runs (non-explicit name, or explicit resolution
failed), `find` is the loop's result. -/
theorem find_eq_loop (fs : FS) (basePath iconName : String)
    (searchPaths : List ThemeSubdirectory)
    (hrun : iconName.data.head? = some '/' →
      tryFindExplicitFile fs basePath iconName = "") :
    find fs basePath searchPaths iconName = (findLoop fs iconName searchPaths).2 := by
  unfold find
  by_cases h0 : iconName.data.head? = some '/'
  · simp [h0, hrun h0]
  · simp [h0]

/-- C4 counterexample: (i) a directory of size 0 contains a matching file,
yet `find` returns the empty result, because a directory is probed only
when its size strictly exceeds the initial best of 0; (ii) for an
explicit-path icon name that exists, `find` returns it even though no
search directory contains a match. -/
theorem iconfinder_find_largest_counterexample :
    (findExistingIcon ⟨fun s => s = "/z/foo.png", fun _ => false, fun _ => none,
        fun _ => none⟩ "/z" "foo" = "/z/foo.png"
      ∧ find ⟨fun s => s = "/z/foo.png", fun _ => false, fun _ => none, fun _ => none⟩
          "/base" [⟨"/z", 0⟩] "foo" = "")
    ∧ find ⟨fun s => s = "/e/icon.png", fun _ => false, fun _ => none, fun _ => none⟩
        "/base" [] "/e/icon.png" = "/e/icon.png" := by
  refine ⟨⟨?_, ?_⟩, ?_⟩ <;> decide

/-- C4 (amended): for every search-path list whose entries all have
positive size, whenever the size-ranked search runs (the name is not an
explicit path, or explicit resolution failed), `find` returns the probe
result of a directory of maximal size among those containing a match —
the name unchanged if it carries a recognized image extension, else the
name with a recognized extension appended — and returns the empty result,
never a non-existent path, when no directory contains a match. -/
theorem iconfinder_find_largest_size_wins (fs : FS) (basePath iconName : String)
    (searchPaths : List ThemeSubdirectory)
    (hpos : ∀ p ∈ searchPaths, 1 ≤ p.size)
    (hrun : iconName.data.head? = some '/' →
      tryFindExplicitFile fs basePath iconName = "") :
    ((∀ p ∈ searchPaths, findExistingIcon fs p.path iconName = "") →
      find fs basePath searchPaths iconName = "")
    ∧ (∀ q ∈ searchPaths, findExistingIcon fs q.path iconName ≠ "" →
      ∃ p ∈ searchPaths, findExistingIcon fs p.path iconName ≠ ""
        ∧ find fs basePath searchPaths iconName = findExistingIcon fs p.path iconName
        ∧ ∀ r ∈ searchPaths, findExistingIcon fs r.path iconName ≠ "" →
            r.size ≤ p.size)
    ∧ (find fs basePath searchPaths iconName ≠ "" →
      fs.fileExists (find fs basePath searchPaths iconName) = true
      ∧ ((hasImageExtension iconName = true
            ∧ ∃ p ∈ searchPaths,
                find fs basePath searchPaths iconName = gjoin p.path iconName)
         ∨ (hasImageExtension iconName = false
            ∧ ∃ p ∈ searchPaths, ∃ extension ∈ ICON_TYPES,
                find fs basePath searchPaths iconName
                  = gjoin p.path (iconName ++ extension)))) := by
  have hfl := find_eq_loop fs basePath iconName searchPaths hrun
  obtain ⟨d, m, hall⟩ := findLoop_spec fs iconName searchPaths
  refine ⟨?_, ?_, ?_⟩
  · intro hnone
    rcases d with d | ⟨p, hp, hpne, _, _⟩
    · rw [hfl, d]
    · exact absurd (hnone p hp) hpne
  · intro q hq hqne
    rcases d with d | ⟨p, hp, hpne, hpeq, _⟩
    · exfalso
      have h1 : q.size ≤ (findLoop fs iconName searchPaths).1 := hall q hq hqne
      have h2 : (findLoop fs iconName searchPaths).1 = 0 := by rw [d]
      have h3 := hpos q hq
      omega
    · refine ⟨p, hp, hpne, by rw [hfl, hpeq], ?_⟩
      · intro r hr hrne
        have := hall r hr hrne
        rw [hpeq] at this
        exact this
  · intro hne
    rw [hfl] at hne
    rcases d with d | ⟨p, hp, hpne, hpeq, _⟩
    · exact absurd (by rw [d]) hne
    · have hval : (findLoop fs iconName searchPaths).2
          = findExistingIcon fs p.path iconName := by rw [hpeq]
      obtain ⟨hex, himg, hnoimg⟩ := findExistingIcon_spec fs p.path iconName hpne
      rw [hfl, hval]
      by_cases hcase : hasImageExtension iconName
      · exact ⟨by rw [himg hcase] at hex ⊢; exact hex,
          Or.inl ⟨hcase, p, hp, himg hcase⟩⟩
      · obtain ⟨extension, hmem, heq⟩ := hnoimg (by simpa using hcase)
        exact ⟨hex, Or.inr ⟨by simpa using hcase, p, hp, extension, hmem, heq⟩⟩

theorem iconfinder_find_largest_size_wins_witness :
    ∃ p ∈ [ThemeSubdirectory.mk "/d128" 128, ThemeSubdirectory.mk "/d48" 48],
      findExistingIcon ⟨fun s => s = "/d128/foo.png" ∨ s = "/d48/foo.png",
          fun _ => false, fun _ => none, fun _ => none⟩ p.path "foo" ≠ ""
      ∧ find ⟨fun s => s = "/d128/foo.png" ∨ s = "/d48/foo.png", fun _ => false,
            fun _ => none, fun _ => none⟩ "/base"
          [ThemeSubdirectory.mk "/d128" 128, ThemeSubdirectory.mk "/d48" 48] "foo"
        = findExistingIcon ⟨fun s => s = "/d128/foo.png" ∨ s = "/d48/foo.png",
            fun _ => false, fun _ => none, fun _ => none⟩ p.path "foo"
      ∧ ∀ r ∈ [ThemeSubdirectory.mk "/d128" 128, ThemeSubdirectory.mk "/d48" 48],
          findExistingIcon ⟨fun s => s = "/d128/foo.png" ∨ s = "/d48/foo.png",
              fun _ => false, fun _ => none, fun _ => none⟩ r.path "foo" ≠ ""
          → r.size ≤ p.size :=
  (iconfinder_find_largest_size_wins
      ⟨fun s => s = "/d128/foo.png" ∨ s = "/d48/foo.png", fun _ => false,
        fun _ => none, fun _ => none⟩ "/base" "foo"
      [ThemeSubdirectory.mk "/d128" 128, ThemeSubdirectory.mk "/d48" 48]
      (by decide) (by decide)).2.1
    (ThemeSubdirectory.mk "/d128" 128) (by decide) (by decide)

/-! ### The probe trace (claim C10) -/

theorem findLoopTrace_fst (fs : FS) (name : String) :
    ∀ (l : List ThemeSubdirectory) (acc : Int × String),
      (findLoopTrace fs name l acc).1 = l.foldl (findIconStep fs name) acc := by
  intro l
  induction l with
  | nil => intro acc; rfl
  | cons p rest ih =>
      intro acc
      rw [List.foldl_cons]
      by_cases h1 : p.size > acc.1
      · simp only [findLoopTrace, if_pos h1]
        rw [ih]
        congr 1
        simp [findIconStep, h1]
      · simp only [findLoopTrace, if_neg h1]
        rw [ih]
        congr 1
        simp [findIconStep, h1]

theorem findLoopTrace_append (fs : FS) (name : String) :
    ∀ (l1 l2 : List ThemeSubdirectory) (acc : Int × String),
      (findLoopTrace fs name (l1 ++ l2) acc).2
        = (findLoopTrace fs name l1 acc).2
          ++ (findLoopTrace fs name l2 (l1.foldl (findIconStep fs name) acc)).2 := by
  intro l1
  induction l1 with
  | nil => intro l2 acc; rfl
  | cons p rest ih =>
      intro l2 acc
      rw [List.foldl_cons, List.cons_append]
      by_cases h1 : p.size > acc.1
      · simp only [findLoopTrace, if_pos h1]
        rw [ih]
        have hs : findIconStep fs name acc p
            = if findExistingIcon fs p.path name = "" then acc
              else (p.size, findExistingIcon fs p.path name) := by
          simp [findIconStep, h1]
        rw [hs]
        simp
      · simp only [findLoopTrace, if_neg h1]
        rw [ih]
        have hs : findIconStep fs name acc p = acc := by simp [findIconStep, h1]
        rw [hs]

/-- A directory whose size does not exceed the current best is skipped:
not probed, and the trace is as if it were absent. -/
theorem findLoopTrace_skip (fs : FS) (name : String) (q : ThemeSubdirectory)
    (l : List ThemeSubdirectory) (acc : Int × String) (h : ¬ q.size > acc.1) :
    findLoopTrace fs name (q :: l) acc = findLoopTrace fs name l acc := by
  simp [findLoopTrace, h]

theorem foldl_step_skip (fs : FS) (name : String) (q : ThemeSubdirectory)
    (l : List ThemeSubdirectory) (acc : Int × String) (h : ¬ q.size > acc.1) :
    (q :: l).foldl (findIconStep fs name) acc = l.foldl (findIconStep fs name) acc := by
  rw [List.foldl_cons]
  congr 1
  simp [findIconStep, h]

/-- If a fold did not raise the best size it did not change the state at
all: every update is a strict increase. -/
theorem foldl_step_stuck (fs : FS) (name : String) (l : List ThemeSubdirectory)
    (acc : Int × String) (h : (l.foldl (findIconStep fs name) acc).1 = acc.1) :
    l.foldl (findIconStep fs name) acc = acc := by
  obtain ⟨d, _, _⟩ := findLoop_aux_spec fs name l acc
  rcases d with d | ⟨p, _, _, hpeq, hplt⟩
  · exact d
  · rw [hpeq] at h
    exact absurd h (by simpa using ne_of_gt hplt)

/-- Removing a directory that can never be probed (its size is at most the
incoming best) changes neither the fold nor the probe trace. -/
theorem step_removal (fs : FS) (name : String) (l2 l3 : List ThemeSubdirectory)
    (q : ThemeSubdirectory) (A : Int × String) (hq : q.size ≤ A.1) :
    (l2 ++ q :: l3).foldl (findIconStep fs name) A
      = (l2 ++ l3).foldl (findIconStep fs name) A
    ∧ (findLoopTrace fs name (l2 ++ q :: l3) A).2
      = (findLoopTrace fs name (l2 ++ l3) A).2 := by
  have hC : A.1 ≤ (l2.foldl (findIconStep fs name) A).1 :=
    (findLoop_aux_spec fs name l2 A).2.1
  have hskip : ¬ q.size > (l2.foldl (findIconStep fs name) A).1 :=
    not_lt_of_le (le_trans hq hC)
  constructor
  · rw [List.foldl_append, List.foldl_append, foldl_step_skip fs name q l3 _ hskip]
  · rw [findLoopTrace_append, findLoopTrace_append,
      findLoopTrace_skip fs name q l3 _ hskip]

/-- C10: a candidate directory is probed only when its size strictly
exceeds the best so far, so once `p` records a match, a later directory
`q` of the same size is never probed (the probe trace is as if `q` were
absent), cannot change the outcome, and when the final best size is
`p.size` the winning icon is `p`'s — the earliest match at that size. -/
theorem iconfinder_equal_size_never_displaces (fs : FS) (name : String)
    (l1 l2 l3 : List ThemeSubdirectory) (p q : ThemeSubdirectory)
    (hsz : q.size = p.size)
    (hm : findExistingIcon fs p.path name ≠ "")
    (hrec : (findLoop fs name l1).1 < p.size) :
    (findLoopTrace fs name (l1 ++ p :: (l2 ++ q :: l3)) (0, "")).2
      = (findLoopTrace fs name (l1 ++ p :: (l2 ++ l3)) (0, "")).2
    ∧ findLoop fs name (l1 ++ p :: (l2 ++ q :: l3))
      = findLoop fs name (l1 ++ p :: (l2 ++ l3))
    ∧ ((findLoop fs name (l1 ++ p :: (l2 ++ q :: l3))).1 = p.size →
        (findLoop fs name (l1 ++ p :: (l2 ++ q :: l3))).2
          = findExistingIcon fs p.path name) := by
  have hrecB : (l1.foldl (findIconStep fs name) (0, "")).1 < p.size := hrec
  have hstep : findIconStep fs name (l1.foldl (findIconStep fs name) (0, "")) p
      = (p.size, findExistingIcon fs p.path name) := by
    simp [findIconStep, hrecB, hm]
  have hrem := step_removal fs name l2 l3 q
    (p.size, findExistingIcon fs p.path name) (le_of_eq hsz)
  have hfold : findLoop fs name (l1 ++ p :: (l2 ++ q :: l3))
      = findLoop fs name (l1 ++ p :: (l2 ++ l3)) := by
    show (l1 ++ p :: (l2 ++ q :: l3)).foldl (findIconStep fs name) (0, "")
      = (l1 ++ p :: (l2 ++ l3)).foldl (findIconStep fs name) (0, "")
    rw [List.foldl_append, List.foldl_append, List.foldl_cons, List.foldl_cons,
      hstep, hrem.1]
  refine ⟨?_, hfold, ?_⟩
  · rw [findLoopTrace_append, findLoopTrace_append]
    congr 1
    simp only [findLoopTrace, if_pos hrecB]
    have hs : (if findExistingIcon fs p.path name = ""
        then l1.foldl (findIconStep fs name) (0, "")
        else (p.size, findExistingIcon fs p.path name))
        = (p.size, findExistingIcon fs p.path name) := by simp [hm]
    rw [hs]
    exact congrArg (p :: ·) hrem.2
  · intro hfin
    -- the suffix after p starts from A = (p.size, icon p) and never rose
    have hA : findLoop fs name (l1 ++ p :: (l2 ++ l3))
        = (l2 ++ l3).foldl (findIconStep fs name)
            (p.size, findExistingIcon fs p.path name) := by
      show (l1 ++ p :: (l2 ++ l3)).foldl (findIconStep fs name) (0, "")
        = (l2 ++ l3).foldl (findIconStep fs name)
            (p.size, findExistingIcon fs p.path name)
      rw [List.foldl_append, List.foldl_cons, hstep]
    rw [hfold] at hfin ⊢
    rw [hA] at hfin ⊢
    have hstuck := foldl_step_stuck fs name (l2 ++ l3)
      (p.size, findExistingIcon fs p.path name) hfin
    rw [hstuck]

theorem iconfinder_equal_size_never_displaces_witness :
    (findLoopTrace ⟨fun s => s = "/a/foo.png" ∨ s = "/b/foo.png", fun _ => false,
        fun _ => none, fun _ => none⟩ "foo"
      ([] ++ ThemeSubdirectory.mk "/a" 5 :: ([] ++ ThemeSubdirectory.mk "/b" 5 :: []))
      (0, "")).2
      = (findLoopTrace ⟨fun s => s = "/a/foo.png" ∨ s = "/b/foo.png", fun _ => false,
          fun _ => none, fun _ => none⟩ "foo"
        ([] ++ ThemeSubdirectory.mk "/a" 5 :: ([] ++ [])) (0, "")).2
    ∧ findLoop ⟨fun s => s = "/a/foo.png" ∨ s = "/b/foo.png", fun _ => false,
        fun _ => none, fun _ => none⟩ "foo"
      ([] ++ ThemeSubdirectory.mk "/a" 5 :: ([] ++ ThemeSubdirectory.mk "/b" 5 :: []))
      = findLoop ⟨fun s => s = "/a/foo.png" ∨ s = "/b/foo.png", fun _ => false,
          fun _ => none, fun _ => none⟩ "foo"
        ([] ++ ThemeSubdirectory.mk "/a" 5 :: ([] ++ []))
    ∧ ((findLoop ⟨fun s => s = "/a/foo.png" ∨ s = "/b/foo.png", fun _ => false,
        fun _ => none, fun _ => none⟩ "foo"
      ([] ++ ThemeSubdirectory.mk "/a" 5 :: ([] ++ ThemeSubdirectory.mk "/b" 5 :: []))).1
        = (ThemeSubdirectory.mk "/a" 5).size →
      (findLoop ⟨fun s => s = "/a/foo.png" ∨ s = "/b/foo.png", fun _ => false,
          fun _ => none, fun _ => none⟩ "foo"
        ([] ++ ThemeSubdirectory.mk "/a" 5 :: ([] ++ ThemeSubdirectory.mk "/b" 5 :: []))).2
        = findExistingIcon ⟨fun s => s = "/a/foo.png" ∨ s = "/b/foo.png", fun _ => false,
            fun _ => none, fun _ => none⟩ "/a" "foo") :=
  iconfinder_equal_size_never_displaces
    ⟨fun s => s = "/a/foo.png" ∨ s = "/b/foo.png", fun _ => false,
      fun _ => none, fun _ => none⟩ "foo" [] [] []
    (ThemeSubdirectory.mk "/a" 5) (ThemeSubdirectory.mk "/b" 5)
    rfl (by decide) (by decide)

/-! ### Sorting of the search paths (claim C5) -/

theorem mem_insertBySize (x z : ThemeSubdirectory) :
    ∀ l : List ThemeSubdirectory, z ∈ insertBySize x l ↔ z = x ∨ z ∈ l := by
  intro l
  induction l with
  | nil => simp [insertBySize]
  | cons y ys ih =>
      by_cases h : y.size > x.size
      · simp only [insertBySize, if_pos h, List.mem_cons, ih]
        tauto
      · simp only [insertBySize, if_neg h, List.mem_cons]

theorem insertBySize_pairwise (x : ThemeSubdirectory) :
    ∀ l : List ThemeSubdirectory,
      List.Pairwise (fun a b => b.size ≤ a.size) l →
      List.Pairwise (fun a b => b.size ≤ a.size) (insertBySize x l) := by
  intro l
  induction l with
  | nil => intro _; simp [insertBySize]
  | cons y ys ih =>
      intro hp
      obtain ⟨hy, hys⟩ := List.pairwise_cons.mp hp
      by_cases h : y.size > x.size
      · rw [insertBySize, if_pos h]
        refine List.pairwise_cons.mpr ⟨?_, ih hys⟩
        intro z hz
        rcases (mem_insertBySize x z ys).mp hz with rfl | hz
        · exact le_of_lt h
        · exact hy z hz
      · rw [insertBySize, if_neg h]
        refine List.pairwise_cons.mpr ⟨?_, hp⟩
        intro z hz
        rcases List.mem_cons.mp hz with rfl | hz
        · exact le_of_not_lt h
        · exact le_trans (hy z hz) (le_of_not_lt h)

theorem sortBySizeDesc_pairwise :
    ∀ l : List ThemeSubdirectory,
      List.Pairwise (fun a b => b.size ≤ a.size) (sortBySizeDesc l) := by
  intro l
  induction l with
  | nil => simp [sortBySizeDesc]
  | cons x xs ih => exact insertBySize_pairwise x (sortBySizeDesc xs) ih

theorem filter_insertBySize (x : ThemeSubdirectory) (s : Int) :
    ∀ l : List ThemeSubdirectory,
      (insertBySize x l).filter (fun p => p.size = s)
        = if x.size = s then x :: l.filter (fun p => p.size = s)
          else l.filter (fun p => p.size = s) := by
  intro l
  induction l with
  | nil =>
      by_cases hx : x.size = s <;> simp [insertBySize, List.filter, hx]
  | cons y ys ih =>
      by_cases h : y.size > x.size
      · rw [insertBySize, if_pos h]
        by_cases hx : x.size = s
        · have hy : ¬ y.size = s := by omega
          simp [List.filter_cons, hx, hy, ih]
        · by_cases hy : y.size = s <;> simp [List.filter_cons, hx, hy, ih]
      · rw [insertBySize, if_neg h]
        by_cases hx : x.size = s <;> simp [List.filter_cons, hx]

theorem filter_sortBySizeDesc (s : Int) :
    ∀ l : List ThemeSubdirectory,
      (sortBySizeDesc l).filter (fun p => p.size = s)
        = l.filter (fun p => p.size = s) := by
  intro l
  induction l with
  | nil => rfl
  | cons x xs ih =>
      rw [sortBySizeDesc, filter_insertBySize]
      by_cases hx : x.size = s <;> simp [List.filter_cons, hx, ih]

/-- C5: for every base path (and filesystem), the search-path list built
by `getSearchPaths` is sorted non-increasing by size, and the entries of
each fixed size appear in exactly their collection (insertion) order: the
sort is stable. -/
theorem iconfinder_getSearchPaths_sorted_stable (fs : FS) (basePath : String) :
    List.Pairwise (fun a b => b.size ≤ a.size) (getSearchPaths fs basePath)
    ∧ ∀ s : Int,
        (getSearchPaths fs basePath).filter (fun p => p.size = s)
          = (collectSearchPaths fs basePath).filter (fun p => p.size = s) :=
  ⟨sortBySizeDesc_pairwise (collectSearchPaths fs basePath),
   fun s => filter_sortBySizeDesc s (collectSearchPaths fs basePath)⟩

/-! ### Explicit-path fall-through (claim C6) -/

/-- C6 counterexample: an absolute icon name for which direct existence,
base-path joining and the merge heuristic all fail (`tryFindExplicitFile`
returns empty).  A search directory contains the bare filename
`icon.png`, so a bare-filename fall-through would find it — yet `find`
returns the empty result, because the fall-through probes the full icon
name joined beneath the directory (`/t/abs/icon.png`), not the bare
filename. -/
theorem iconfinder_fallthrough_counterexample :
    tryFindExplicitFile ⟨fun s => s = "/t/icon.png", fun _ => false, fun _ => none,
        fun _ => none⟩ "/base" "/abs/icon.png" = ""
    ∧ find ⟨fun s => s = "/t/icon.png", fun _ => false, fun _ => none, fun _ => none⟩
        "/base" [⟨"/t", 10⟩] "/abs/icon.png" = ""
    ∧ (findLoop ⟨fun s => s = "/t/icon.png", fun _ => false, fun _ => none,
        fun _ => none⟩ "icon.png" [⟨"/t", 10⟩]).2 = "/t/icon.png"
    ∧ gjoin "/t" "/abs/icon.png" = "/t/abs/icon.png" := by
  refine ⟨?_, ?_, ?_, ?_⟩ <;> decide

/-- C6 (amended): for an icon name beginning with a path separator, when
direct existence, base-path joining and the merge heuristic all fail,
`find` falls through to the size-ranked directory search using the icon
name unchanged — the full path, which each probe joins beneath the
candidate directory — not the bare filename. -/
theorem iconfinder_fallthrough_full_name (fs : FS) (basePath iconName : String)
    (searchPaths : List ThemeSubdirectory)
    (h0 : iconName.data.head? = some '/')
    (hfail : tryFindExplicitFile fs basePath iconName = "") :
    find fs basePath searchPaths iconName = (findLoop fs iconName searchPaths).2
    ∧ ((findLoop fs iconName searchPaths).2 ≠ "" → hasImageExtension iconName = true →
        ∃ p ∈ searchPaths,
          (findLoop fs iconName searchPaths).2 = gjoin p.path iconName) := by
  constructor
  · exact find_eq_loop fs basePath iconName searchPaths (fun _ => hfail)
  · intro hne himg
    obtain ⟨d, _, _⟩ := findLoop_spec fs iconName searchPaths
    rcases d with d | ⟨p, hp, hpne, hpeq, _⟩
    · exact absurd (by rw [d]) hne
    · refine ⟨p, hp, ?_⟩
      rw [hpeq]
      exact (findExistingIcon_spec fs p.path iconName hpne).2.1 himg

theorem iconfinder_fallthrough_full_name_witness :
    find ⟨fun s => s = "/t/abs/icon.png", fun _ => false, fun _ => none, fun _ => none⟩
      "/base" [⟨"/t", 10⟩] "/abs/icon.png"
      = (findLoop ⟨fun s => s = "/t/abs/icon.png", fun _ => false, fun _ => none,
          fun _ => none⟩ "/abs/icon.png" [⟨"/t", 10⟩]).2
    ∧ ((findLoop ⟨fun s => s = "/t/abs/icon.png", fun _ => false, fun _ => none,
          fun _ => none⟩ "/abs/icon.png" [⟨"/t", 10⟩]).2 ≠ "" →
        hasImageExtension "/abs/icon.png" = true →
        ∃ p ∈ [ThemeSubdirectory.mk "/t" 10],
          (findLoop ⟨fun s => s = "/t/abs/icon.png", fun _ => false, fun _ => none,
              fun _ => none⟩ "/abs/icon.png" [⟨"/t", 10⟩]).2
            = gjoin p.path "/abs/icon.png") :=
  iconfinder_fallthrough_full_name
    ⟨fun s => s = "/t/abs/icon.png", fun _ => false, fun _ => none, fun _ => none⟩
    "/base" "/abs/icon.png" [⟨"/t", 10⟩] (by decide) (by decide)

end IconFinder

/-! ## Desktop-file reconciler (src/desktop-hook.c)

The per-identity state, the observation phase that builds the state array
from the click symlink directory and the desktop-entry directory, the
merge loop's action selection, and the `Exec`/`Path` rewrite of
`copy_desktop_file`.  File creation times are naturals; the desktop
key-file is an ordered association list for the `"Desktop Entry"` group
(comments/translations are preserved by the external key-file collaborator
and carry no logic). -/

namespace DesktopHook

structure AppState where
  app_id : String
  has_click : Bool
  has_desktop : Bool
  click_created : Nat
  desktop_created : Nat
deriving DecidableEq

/-- `find_app_entry` + `add_click_package` (desktop-hook.c 36-90): find or
lazily create the entry, then set the click observation. -/
def addClickPackage (appArray : List AppState) (name : String) (ctime : Nat) :
    List AppState :=
  if appArray.any (fun s => s.app_id = name) then
    appArray.map (fun s =>
      if s.app_id = name then { s with has_click := true, click_created := ctime } else s)
  else
    appArray ++ [{ app_id := name, has_click := true, has_desktop := false,
                   click_created := ctime, desktop_created := 0 }]

/-- Truncate at the first occurrence of `".desktop"`: the source
zero-terminates the id at `g_strstr_len(appid, -1, ".desktop")`. -/
def truncAtDesktop : List Char → List Char
  | [] => []
  | c :: rest =>
      if List.isPrefixOf ".desktop".data (c :: rest) then []
      else c :: truncAtDesktop rest

/-- The filename convention filter of `add_desktop_file` (desktop-hook.c
93-113): only `click-<identity>.desktop` files are recognized; everything
else is ignored entirely. -/
def parseDesktopName (name : String) : Option String :=
  if ¬ strEndsWith name ".desktop" then none
  else if ¬ List.isPrefixOf "click-".data name.data then none
  else some (String.mk (truncAtDesktop (name.data.drop 6)))

/-- `find_app_entry` + `add_desktop_file` (desktop-hook.c 93-113). -/
def addDesktopFile (appArray : List AppState) (name : String) (ctime : Nat) :
    List AppState :=
  match parseDesktopName name with
  | none => appArray
  | some appid =>
      if appArray.any (fun s => s.app_id = appid) then
        appArray.map (fun s =>
          if s.app_id = appid then { s with has_desktop := true, desktop_created := ctime }
          else s)
      else
        appArray ++ [{ app_id := appid, has_click := false, has_desktop := true,
                       click_created := 0, desktop_created := ctime }]

/-- One reconciliation pass's observation phase (desktop-hook.c 255-273):
every click-directory entry, then every desktop-directory entry. -/
def buildAppArray (clicks desktops : List (String × Nat)) : List AppState :=
  desktops.foldl (fun arr e => addDesktopFile arr e.1 e.2)
    (clicks.foldl (fun arr e => addClickPackage arr e.1 e.2) [])

/-- The filesystem mutations the merge loop can request. -/
inductive FsOp where
  | removeDesktop (app_id : String)
  | buildDesktop (app_id : String)
  | mkdirApplications
deriving DecidableEq

/-- The merge-loop body of `main` (desktop-hook.c 281-307) for one state:
the list of attempted filesystem operations in order, and the updated
`desktopdirexists` flag.  `desktopdirexists` is main's running flag,
threaded between iterations by `processAll` and initialized by `mainPass`
exactly as desktop-hook.c 266-273 initializes it (from a test of the
click symlink directory — see `mainPass`).  `mkdirOk` is the outcome of
`g_mkdir_with_parents` when it is attempted. -/
def processAppState (s : AppState) (desktopdirexists mkdirOk : Bool) :
    List FsOp × Bool :=
  if s.has_click ∧ s.has_desktop then
    if s.click_created > s.desktop_created then
      ([.removeDesktop s.app_id, .buildDesktop s.app_id], desktopdirexists)
    else ([], desktopdirexists)
  else if s.has_click then
    if ¬ desktopdirexists then
      if mkdirOk then ([.mkdirApplications, .buildDesktop s.app_id], true)
      else ([.mkdirApplications], false)
    else ([.buildDesktop s.app_id], desktopdirexists)
  else if s.has_desktop then
    ([.removeDesktop s.app_id], desktopdirexists)
  else ([], desktopdirexists)

/-- The merge loop of `main` (desktop-hook.c 276-310): every observed
state in order, threading the `desktopdirexists` flag from one iteration
to the next. -/
def processAll : List AppState → Bool → Bool → List FsOp
  | [], _, _ => []
  | s :: rest, desktopdirexists, mkdirOk =>
      (processAppState s desktopdirexists mkdirOk).1
        ++ processAll rest (processAppState s desktopdirexists mkdirOk).2 mkdirOk

/-- What one run of `main` observes of the filesystem: the two directory
tests, the two directories' entries (name, creation time), and the
outcome `g_mkdir_with_parents` would have. -/
structure WorldFS where
  symlinkdirIsDir : Bool
  desktopdirIsDir : Bool
  clickEntries : List (String × Nat)
  desktopEntries : List (String × Nat)
  mkdirOk : Bool

/-- The observation phase of `main` (desktop-hook.c 255-273).  Note that
BOTH directory scans are guarded by `g_file_test(symlinkdir, ...)`: line
268 re-tests `symlinkdir`, not `desktopdir`, before the applications
directory is scanned.  Scanning a missing applications directory yields
no entries (`dir_for_each` warns on `g_dir_open` failure and returns). -/
def observedArray (w : WorldFS) : List AppState :=
  let arr1 : List AppState :=
    if w.symlinkdirIsDir then
      w.clickEntries.foldl (fun a e => addClickPackage a e.1 e.2) []
    else []
  if w.symlinkdirIsDir then
    if w.desktopdirIsDir then
      w.desktopEntries.foldl (fun a e => addDesktopFile a e.1 e.2) arr1
    else arr1
  else arr1

/-- One full reconciliation pass of `main` (desktop-hook.c 247-317).
`desktopdirexists` starts FALSE and is set TRUE in the else branch of the
second directory test — whose condition tests `symlinkdir`
(desktop-hook.c 268), not the applications directory — so the flag
entering the merge loop equals the click symlink directory's test
result, regardless of whether the applications directory exists. -/
def mainPass (w : WorldFS) : List FsOp :=
  processAll (observedArray w) w.symlinkdirIsDir w.mkdirOk

/-! ### `copy_desktop_file` (desktop-hook.c 139-200) -/

/-- First-match lookup in the `"Desktop Entry"` group. -/
def lookupKV : List (String × String) → String → Option String
  | [], _ => none
  | p :: rest, key => if p.1 = key then some p.2 else lookupKV rest key

/-- `g_key_file_set_string`: replace the value in place if the key exists,
else append the pair. -/
def setKV (kf : List (String × String)) (key value : String) :
    List (String × String) :=
  if kf.any (fun p => p.1 = key) then
    kf.map (fun p => if p.1 = key then (key, value) else p)
  else kf ++ [(key, value)]

/-- Modelled from the spec: `desktop_to_exec` (helpers.c, which is not
under src/) "parses the package's source desktop entry and extracts its
launch command" (§4.4); failure aborts the copy. -/
def desktop_to_exec (kf : List (String × String)) : Option String :=
  lookupKV kf "Exec"

/-- `copy_desktop_file` (desktop-hook.c 139-200): save a pre-existing
`Path` under `XCanonicalOldPath`, overwrite `Path` with the package's
install directory, and rewrite `Exec` through the `aa-exec` sandbox
wrapper keyed by the identity. -/
def copy_desktop_file (kf : List (String × String)) (appdir app_id : String) :
    Option (List (String × String)) :=
  match desktop_to_exec kf with
  | none => none
  | some oldexec =>
      let kf1 :=
        match lookupKV kf "Path" with
        | some oldpath => setKV kf "XCanonicalOldPath" oldpath
        | none => kf
      let kf2 := setKV kf1 "Path" (gjoin appdir app_id)
      let kf3 := setKV kf2 "Exec" ("aa-exec -p " ++ app_id ++ " -- " ++ oldexec)
      some kf3

/-! ### Reconciler theorems -/

theorem addClickPackage_flag (arr : List AppState) (name : String) (ctime : Nat)
    (h : ∀ s ∈ arr, s.has_click = true ∨ s.has_desktop = true) :
    ∀ s ∈ addClickPackage arr name ctime,
      s.has_click = true ∨ s.has_desktop = true := by
  intro s hs
  unfold addClickPackage at hs
  by_cases ha : arr.any (fun t => t.app_id = name)
  · rw [if_pos ha] at hs
    obtain ⟨t, ht, hts⟩ := List.mem_map.mp hs
    by_cases hid : t.app_id = name
    · rw [if_pos hid] at hts
      exact Or.inl (by rw [← hts])
    · rw [if_neg hid] at hts
      exact hts ▸ h t ht
  · rw [if_neg ha] at hs
    rcases List.mem_append.mp hs with hs | hs
    · exact h s hs
    · rcases List.mem_singleton.mp hs with rfl
      exact Or.inl rfl

theorem addDesktopFile_flag (arr : List AppState) (name : String) (ctime : Nat)
    (h : ∀ s ∈ arr, s.has_click = true ∨ s.has_desktop = true) :
    ∀ s ∈ addDesktopFile arr name ctime,
      s.has_click = true ∨ s.has_desktop = true := by
  intro s hs
  cases hp : parseDesktopName name with
  | none =>
      have hred : addDesktopFile arr name ctime = arr := by
        unfold addDesktopFile
        rw [hp]
      rw [hred] at hs
      exact h s hs
  | some appid =>
      have hred : addDesktopFile arr name ctime
          = if arr.any (fun t => t.app_id = appid) then
              arr.map (fun t =>
                if t.app_id = appid then
                  { t with has_desktop := true, desktop_created := ctime }
                else t)
            else
              arr ++ [{ app_id := appid, has_click := false, has_desktop := true,
                        click_created := 0, desktop_created := ctime }] := by
        unfold addDesktopFile
        rw [hp]
      rw [hred] at hs
      by_cases ha : arr.any (fun t => t.app_id = appid)
      · rw [if_pos ha] at hs
        obtain ⟨t, ht, hts⟩ := List.mem_map.mp hs
        by_cases hid : t.app_id = appid
        · rw [if_pos hid] at hts
          exact Or.inr (by rw [← hts])
        · rw [if_neg hid] at hts
          exact hts ▸ h t ht
      · rw [if_neg ha] at hs
        rcases List.mem_append.mp hs with hs | hs
        · exact h s hs
        · rcases List.mem_singleton.mp hs with rfl
          exact Or.inr rfl

theorem buildAppArray_flag (clicks desktops : List (String × Nat)) :
    ∀ s ∈ buildAppArray clicks desktops,
      s.has_click = true ∨ s.has_desktop = true := by
  have h1 : ∀ (l : List (String × Nat)) (arr : List AppState),
      (∀ s ∈ arr, s.has_click = true ∨ s.has_desktop = true) →
      ∀ s ∈ l.foldl (fun a e => addClickPackage a e.1 e.2) arr,
        s.has_click = true ∨ s.has_desktop = true := by
    intro l
    induction l with
    | nil => exact fun arr h => h
    | cons e rest ih =>
        intro arr h
        exact ih _ (addClickPackage_flag arr e.1 e.2 h)
  have h2 : ∀ (l : List (String × Nat)) (arr : List AppState),
      (∀ s ∈ arr, s.has_click = true ∨ s.has_desktop = true) →
      ∀ s ∈ l.foldl (fun a e => addDesktopFile a e.1 e.2) arr,
        s.has_click = true ∨ s.has_desktop = true := by
    intro l
    induction l with
    | nil => exact fun arr h => h
    | cons e rest ih =>
        intro arr h
        exact ih _ (addDesktopFile_flag arr e.1 e.2 h)
  exact h2 desktops _ (h1 clicks [] (by simp))

/-- With the `desktopdirexists` flag already true, the merge-loop body
never attempts `g_mkdir_with_parents` and leaves the flag true. -/
theorem processAppState_true_flag (s : AppState) (mkdirOk : Bool) :
    (processAppState s true mkdirOk).2 = true
    ∧ FsOp.mkdirApplications ∉ (processAppState s true mkdirOk).1 := by
  by_cases h2 : s.click_created > s.desktop_created <;>
    cases hc : s.has_click <;> cases hd : s.has_desktop <;>
      simp [processAppState, hc, hd, h2]

/-- A merge loop entered with the flag true never issues a mkdir. -/
theorem processAll_no_mkdir_of_flag (l : List AppState) (mkdirOk : Bool) :
    FsOp.mkdirApplications ∉ processAll l true mkdirOk := by
  induction l with
  | nil => simp [processAll]
  | cons s rest ih =>
      obtain ⟨hf, hm⟩ := processAppState_true_flag s mkdirOk
      simp only [processAll, hf]
      intro hmem
      rcases List.mem_append.mp hmem with h | h
      · exact hm h
      · exact ih h

/-- C7 (code bug): the state table requires a click-only identity to
create the applications directory when it is absent and then generate the
desktop file.  But `main` initializes `desktopdirexists` by testing
`symlinkdir` (desktop-hook.c 268) — and any click entry can only be
observed when `symlinkdir` exists — so whenever the click directory test
passes, the flag is already true, no reconciliation pass ever attempts
the mkdir, and at the concrete failing input (click entry `app_1.0`,
applications directory absent) the pass issues only the generate
operation, into a directory that does not exist. -/
theorem reconciler_mkdir_skipped_code_bug :
    (∀ w : WorldFS, w.symlinkdirIsDir = true →
      FsOp.mkdirApplications ∉ mainPass w)
    ∧ mainPass ⟨true, false, [("app_1.0", 7)], [], true⟩
        = [FsOp.buildDesktop "app_1.0"]
    ∧ (WorldFS.mk true false [("app_1.0", 7)] [] true).desktopdirIsDir = false := by
  refine ⟨?_, by decide, rfl⟩
  intro w hs
  unfold mainPass
  rw [hs]
  exact processAll_no_mkdir_of_flag _ _

theorem reconciler_mkdir_skipped_code_bug_witness :
    FsOp.mkdirApplications ∉ mainPass ⟨true, false, [("app_1.0", 7)], [], true⟩ :=
  reconciler_mkdir_skipped_code_bug.1 ⟨true, false, [("app_1.0", 7)], [], true⟩ rfl

theorem lookupKV_append (l1 l2 : List (String × String)) (key : String) :
    lookupKV (l1 ++ l2) key
      = match lookupKV l1 key with
        | some v => some v
        | none => lookupKV l2 key := by
  induction l1 with
  | nil => rfl
  | cons p rest ih =>
      by_cases hp : p.1 = key
      · simp [lookupKV, hp]
      · simp [lookupKV, hp, ih]

theorem lookupKV_eq_none_of_any_false (l : List (String × String)) (key : String)
    (h : l.any (fun p => p.1 = key) = false) : lookupKV l key = none := by
  induction l with
  | nil => rfl
  | cons p rest ih =>
      rw [List.any_cons, Bool.or_eq_false_iff] at h
      have h1 : ¬ p.1 = key := of_decide_eq_false h.1
      simp [lookupKV, h1, ih h.2]

theorem lookupKV_map_same (l : List (String × String)) (key value : String)
    (h : l.any (fun p => p.1 = key) = true) :
    lookupKV (l.map (fun p => if p.1 = key then (key, value) else p)) key
      = some value := by
  induction l with
  | nil => simp at h
  | cons p rest ih =>
      by_cases hp : p.1 = key
      · simp [lookupKV, hp]
      · rw [List.any_cons] at h
        have h2 : rest.any (fun p => p.1 = key) = true := by
          simpa [hp] using h
        simp [lookupKV, hp, ih h2]

theorem lookupKV_map_other (l : List (String × String)) (key value key2 : String)
    (h : ¬ key = key2) :
    lookupKV (l.map (fun p => if p.1 = key then (key, value) else p)) key2
      = lookupKV l key2 := by
  induction l with
  | nil => rfl
  | cons p rest ih =>
      by_cases hp : p.1 = key
      · have hp2 : ¬ p.1 = key2 := by rw [hp]; exact h
        simp [lookupKV, hp, hp2, h, ih]
      · simp [lookupKV, hp, ih]

theorem lookupKV_setKV_same (kf : List (String × String)) (key value : String) :
    lookupKV (setKV kf key value) key = some value := by
  unfold setKV
  by_cases ha : kf.any (fun p => p.1 = key)
  · rw [if_pos ha]
    exact lookupKV_map_same kf key value ha
  · rw [if_neg ha, lookupKV_append,
      lookupKV_eq_none_of_any_false kf key (Bool.eq_false_iff.mpr ha)]
    simp [lookupKV]

theorem lookupKV_setKV_other (kf : List (String × String)) (key value key2 : String)
    (h : ¬ key = key2) :
    lookupKV (setKV kf key value) key2 = lookupKV kf key2 := by
  unfold setKV
  by_cases ha : kf.any (fun p => p.1 = key)
  · rw [if_pos ha]
    exact lookupKV_map_other kf key value key2 h
  · rw [if_neg ha, lookupKV_append]
    cases hl : lookupKV kf key2 with
    | some v => rfl
    | none => simp [lookupKV, h]

/-- C8: every desktop file the reconciler generates has `Exec` set to
`aa-exec -p <identity> -- <original exec line>`, `Path` overwritten with
the package install directory, and a pre-existing `Path` value saved under
`XCanonicalOldPath` before the overwrite. -/
theorem reconciler_copy_desktop_rewrite (kf : List (String × String))
    (appdir app_id : String) (out : List (String × String))
    (h : copy_desktop_file kf appdir app_id = some out) :
    (∃ oldexec, desktop_to_exec kf = some oldexec
      ∧ lookupKV out "Exec" = some ("aa-exec -p " ++ app_id ++ " -- " ++ oldexec))
    ∧ lookupKV out "Path" = some (gjoin appdir app_id)
    ∧ (∀ oldpath, lookupKV kf "Path" = some oldpath →
        lookupKV out "XCanonicalOldPath" = some oldpath) := by
  unfold copy_desktop_file at h
  cases hexec : desktop_to_exec kf with
  | none => rw [hexec] at h; exact absurd h (by simp)
  | some oldexec =>
      rw [hexec] at h
      simp only [Option.some.injEq] at h
      subst h
      refine ⟨⟨oldexec, rfl, lookupKV_setKV_same _ _ _⟩, ?_, ?_⟩
      · rw [lookupKV_setKV_other _ _ _ _ (by decide), lookupKV_setKV_same]
      · intro oldpath hpath
        rw [hpath]
        rw [lookupKV_setKV_other _ _ _ _ (by decide),
          lookupKV_setKV_other _ _ _ _ (by decide),
          lookupKV_setKV_same]

theorem reconciler_copy_desktop_rewrite_witness :
    lookupKV (setKV (setKV (setKV [("Exec", "app --run"), ("Path", "/old")]
        "XCanonicalOldPath" "/old") "Path" (gjoin "/sym" "pkg_app_1.0"))
        "Exec" ("aa-exec -p " ++ "pkg_app_1.0" ++ " -- " ++ "app --run")) "Exec"
      = some ("aa-exec -p " ++ "pkg_app_1.0" ++ " -- " ++ "app --run")
    ∧ lookupKV (setKV (setKV (setKV [("Exec", "app --run"), ("Path", "/old")]
        "XCanonicalOldPath" "/old") "Path" (gjoin "/sym" "pkg_app_1.0"))
        "Exec" ("aa-exec -p " ++ "pkg_app_1.0" ++ " -- " ++ "app --run"))
        "XCanonicalOldPath"
      = some "/old" := by
  have h := reconciler_copy_desktop_rewrite [("Exec", "app --run"), ("Path", "/old")]
    "/sym" "pkg_app_1.0"
    (setKV (setKV (setKV [("Exec", "app --run"), ("Path", "/old")]
        "XCanonicalOldPath" "/old") "Path" (gjoin "/sym" "pkg_app_1.0"))
        "Exec" ("aa-exec -p " ++ "pkg_app_1.0" ++ " -- " ++ "app --run")) rfl
  obtain ⟨⟨oldexec, hex, hlook⟩, hpath, hold⟩ := h
  have hex2 : some oldexec = (some "app --run" : Option String) := hex.symm
  have hoe : oldexec = "app --run" := Option.some_inj.mp hex2
  rw [hoe] at hlook
  exact ⟨hlook, hold "/old" rfl⟩

end DesktopHook

end UAL
